import Mathlib

/-!
Verification of the slide-segmentation / narration / clip-assembly pipeline of
the Video-Generation-App repository (`src/pipeline.py` and
`src/video_generation_service.py`), as a shallow embedding in Lean.

Modelling conventions:
* Python strings are Lean `String`s; `str.split()` (whitespace tokenization,
  empty tokens dropped) is `pySplit`; `sep.join(xs)` is `joinSep sep xs`.
* The PIL font metric `font.getbbox(s)[2]` is an arbitrary function
  `width : String → Nat`.
* The greedy word-wrap loop keeps its accumulator `current` as the list of
  words placed on the line so far; the Python string value of the accumulator
  is `lineStr cur ++ " "` (the words joined by single spaces, plus the
  trailing space the loop always appends), and `current.strip()` is
  `lineStr cur`.  This is exact because the tokens produced by `str.split()`
  are nonempty and contain no whitespace.
* External collaborators (ChatGPT transcripts, image download, gTTS audio
  files, moviepy encoding) are oracles passed in as functions; audio-file
  durations are `ℚ` (the duration moviepy decodes for the written file is a
  function of the text that was synthesized).
-/

namespace VideoGen

/-! ### Python `str.split()` (whitespace tokenizer) -/

/-- State machine for Python `str.split()` on a character list: `acc` holds the
characters of the token currently being read, in reverse. -/
def pyTokensAux : List Char → List Char → List (List Char)
  | [], acc => if acc = [] then [] else [acc.reverse]
  | c :: cs, acc =>
      if c.isWhitespace then
        if acc = [] then pyTokensAux cs [] else acc.reverse :: pyTokensAux cs []
      else pyTokensAux cs (c :: acc)

/-- Tokens of a character list, Python `str.split()` style: maximal runs of
non-whitespace characters. -/
def pyTokens (l : List Char) : List (List Char) := pyTokensAux l []

/-- Python `text.split()`: whitespace-separated tokens, empty tokens dropped. -/
def pySplit (s : String) : List String := (pyTokens s.data).map (fun t => String.mk t)

/-- Python `sep.join(xs)`. -/
def joinSep (sep : String) : List String → String
  | [] => ""
  | [x] => x
  | x :: y :: r => x ++ sep ++ joinSep sep (y :: r)

/-- The string value of a wrapped line held as its list of words: the words
joined by single spaces (this is `current.strip()` in the Python loop). -/
def lineStr (ws : List String) : String := joinSep " " ws

/-- The string value of one slide held as its list of lines of words:
`"\n".join(lines)` in the Python sources. -/
def slideStr (sl : List (List String)) : String := joinSep "\n" (sl.map lineStr)

/-! ### Greedy word wrap (`split_text` in both sources)

```python
def split_text(text, font, max_width):
    lines = []
    words = text.split()
    current = ''
    while words:
        w = words.pop(0)
        test = current + w + ' '
        if font.getbbox(test)[2] <= max_width:
            current = test
        else:
            lines.append(current.strip())
            current = w + ' '
    if current:
        lines.append(current.strip())
    return lines
```
-/

/-- The wrap loop; `cur` is the word list of the accumulator `current`
(`current = lineStr cur ++ " "` when `cur ≠ []`, `current = ''` otherwise). -/
def wrapAux (width : String → Nat) (maxW : Nat) : List String → List String → List (List String)
  | [], cur => if cur = [] then [] else [cur]
  | w :: ws, cur =>
      if width (lineStr (cur ++ [w]) ++ " ") ≤ maxW then
        wrapAux width maxW ws (cur ++ [w])
      else
        cur :: wrapAux width maxW ws [w]

namespace Pipeline

/-- `split_text` of `src/pipeline.py` (identical in
`src/video_generation_service.py`): greedy pixel-budgeted word wrap. -/
def split_text (text : String) (width : String → Nat) (maxW : Nat) : List String :=
  (wrapAux width maxW (pySplit text) []).map lineStr

end Pipeline

/-- Python `lines[i:i+n]` chunking done by
`for i in range(0, len(lines), max_lines)`.  The `n = 0` branches are
artificial: Python `range` raises `ValueError` for step 0, and every claim
assumes `max_lines ≥ 1`, so they are never exercised.  `fuel` only bounds
the recursion: every step consumes at least one element, so `fuel = length`
(as supplied by `chunk`) never runs out. -/
def chunkF : Nat → Nat → List α → List (List α)
  | _, _, [] => []
  | _, 0, x :: xs => [x :: xs]
  | 0, _ + 1, x :: xs => [x :: xs]
  | m + 1, fuel + 1, x :: xs =>
      (x :: xs).take (m + 1) :: chunkF (m + 1) fuel ((x :: xs).drop (m + 1))

/-- `lines[i:i+n]` chunking, `for i in range(0, len(lines), max_lines)`. -/
def chunk (n : Nat) (l : List α) : List (List α) := chunkF n l.length l

lemma chunkF_nil (n fuel : Nat) : chunkF n fuel ([] : List α) = [] := by
  match n, fuel with
  | 0, 0 => rfl
  | 0, _ + 1 => rfl
  | _ + 1, 0 => rfl
  | _ + 1, _ + 1 => rfl

lemma chunkF_fuel (n : Nat) : ∀ (f1 : Nat) (l : List α) (f2 : Nat),
    l.length ≤ f1 → l.length ≤ f2 → chunkF n f1 l = chunkF n f2 l := by
  intro f1
  induction f1 with
  | zero =>
      intro l f2 h1 _
      have : l = [] := List.length_eq_zero.mp (Nat.le_zero.mp h1)
      subst this
      rw [chunkF_nil, chunkF_nil]
  | succ f1 ih =>
      intro l f2 h1 h2
      match l with
      | [] => rw [chunkF_nil, chunkF_nil]
      | x :: xs =>
          match f2 with
          | 0 => simp at h2
          | g + 1 =>
              match n with
              | 0 => rfl
              | m + 1 =>
                  rw [chunkF, chunkF]
                  rw [ih ((x :: xs).drop (m + 1)) g
                    (by rw [List.length_drop]; simp only [List.length_cons] at h1 ⊢; omega)
                    (by rw [List.length_drop]; simp only [List.length_cons] at h2 ⊢; omega)]

lemma chunk_nil (n : Nat) : chunk n ([] : List α) = [] := chunkF_nil n 0

lemma chunk_zero_cons (x : α) (xs : List α) : chunk 0 (x :: xs) = [x :: xs] := rfl

lemma chunk_succ_cons (m : Nat) (x : α) (xs : List α) :
    chunk (m + 1) (x :: xs)
      = (x :: xs).take (m + 1) :: chunk (m + 1) ((x :: xs).drop (m + 1)) := by
  rw [chunk, chunk]
  rw [show (x :: xs).length = xs.length + 1 from rfl, chunkF]
  rw [chunkF_fuel (m + 1) xs.length ((x :: xs).drop (m + 1)) ((x :: xs).drop (m + 1)).length
    (by rw [List.length_drop]; simp only [List.length_cons]; omega) le_rfl]

namespace Pipeline

/-- Slides of `split_text_into_slides` of `src/pipeline.py`, kept structured
(each slide a list of lines, each line a list of words): wrap all lines first,
then paginate into groups of `maxLines`. -/
def slidesCore (text : String) (width : String → Nat) (maxW maxLines : Nat) :
    List (List (List String)) :=
  chunk maxLines (wrapAux width maxW (pySplit text) [])

/-- `split_text_into_slides` of `src/pipeline.py`: each slide is
`"\n".join` of its (stripped) lines. -/
def split_text_into_slides (text : String) (width : String → Nat) (maxW maxLines : Nat) :
    List String :=
  (slidesCore text width maxW maxLines).map slideStr

end Pipeline

namespace Service

/-- The inline wrap-and-paginate loop of `split_text_into_slides` in
`src/video_generation_service.py`: `cur` is the accumulator line's word list,
`csl` the lines collected for the slide being built (`current_slide_lines`).
A slide is closed as soon as `current_slide_lines` reaches `max_lines`;
trailing line and slide are flushed at end of input. -/
def svcAux (width : String → Nat) (maxW maxLines : Nat) :
    List String → List String → List (List String) → List (List (List String))
  | [], cur, csl =>
      let csl' := if cur = [] then csl else csl ++ [cur]
      if csl' = [] then [] else [csl']
  | w :: ws, cur, csl =>
      if width (lineStr (cur ++ [w]) ++ " ") ≤ maxW then
        svcAux width maxW maxLines ws (cur ++ [w]) csl
      else
        let csl' := csl ++ [cur]
        if maxLines ≤ csl'.length then
          csl' :: svcAux width maxW maxLines ws [w] []
        else
          svcAux width maxW maxLines ws [w] csl'

/-- Structured slides of `split_text_into_slides` of
`src/video_generation_service.py`. -/
def slidesCore (text : String) (width : String → Nat) (maxW maxLines : Nat) :
    List (List (List String)) :=
  svcAux width maxW maxLines (pySplit text) [] []

/-- `split_text_into_slides` of `src/video_generation_service.py`. -/
def split_text_into_slides (text : String) (width : String → Nat) (maxW maxLines : Nat) :
    List String :=
  (slidesCore text width maxW maxLines).map slideStr

/-- `split_text` of `src/video_generation_service.py` (verbatim the same
algorithm as the pipeline version). -/
def split_text (text : String) (width : String → Nat) (maxW : Nat) : List String :=
  (wrapAux width maxW (pySplit text) []).map lineStr

end Service

/-! ### Hyphen normalization before speech synthesis (`create_audio_with_gtts`)

```python
def repl(m):
    txt = m.group(0)
    return txt.replace('-', ' dash ') if re.search(r"\d+-\d+", txt) else txt.replace('-', ' ')
voice = re.sub(r"[A-Za-z0-9]+-[A-Za-z0-9]+", repl, text)
```
-/

/-- The character class `[A-Za-z0-9]` of the substitution regex. -/
def isAlnum (c : Char) : Bool := c.isAlpha || c.isDigit

/-- `re.search(r"\d+-\d+", txt)` succeeds exactly when some
digit, hyphen, digit occur consecutively in `txt`. -/
def hasDigitDashDigit : List Char → Bool
  | c1 :: c2 :: c3 :: rest =>
      (c1.isDigit && c2 == '-' && c3.isDigit) || hasDigitDashDigit (c2 :: c3 :: rest)
  | _ => false

/-- Python `txt.replace('-', r)`: every hyphen becomes `r`. -/
def replaceDash (r : List Char) : List Char → List Char
  | [] => []
  | c :: cs => (if c = '-' then r else [c]) ++ replaceDash r cs

/-- The replacement callback `repl`: the matched token keeps code-like
hyphens as the spoken word "dash" when it contains digit-hyphen-digit,
otherwise hyphens become plain spaces. -/
def hyphenRepl (txt : List Char) : List Char :=
  if hasDigitDashDigit txt then replaceDash (" dash ").data txt
  else replaceDash [' '] txt

/-- `re.sub(r"[A-Za-z0-9]+-[A-Za-z0-9]+", repl, text)`: scan left to right;
at a position starting an alphanumeric run, the pattern matches exactly when
the maximal run is followed by a hyphen and at least one more alphanumeric
character (the greedy `+`s take the maximal runs); on a match the replacement
is emitted and scanning resumes after the match, otherwise the scanner
advances one character.  `fuel` only bounds the recursion: every step
consumes at least one input character, so `fuel = length` (as supplied by
`hyphenSub`) never runs out. -/
def hyphenSubF : Nat → List Char → List Char
  | 0, l => l
  | _ + 1, [] => []
  | f + 1, c :: cs =>
      if isAlnum c then
        match List.dropWhile isAlnum (c :: cs) with
        | d :: rest2 =>
            if d = '-' then
              if List.takeWhile isAlnum rest2 = [] then c :: hyphenSubF f cs
              else
                hyphenRepl (List.takeWhile isAlnum (c :: cs) ++ '-' :: List.takeWhile isAlnum rest2)
                  ++ hyphenSubF f (List.dropWhile isAlnum rest2)
            else c :: hyphenSubF f cs
        | [] => c :: hyphenSubF f cs
      else c :: hyphenSubF f cs

/-- The full regex substitution over a character list. -/
def hyphenSub (l : List Char) : List Char := hyphenSubF l.length l

/-- The voiceover text `create_audio_with_gtts` actually sends to gTTS
(the slide text after hyphen normalization). -/
def voiceoverText (s : String) : String := String.mk (hyphenSub s.data)

/-! ### Audio assets, clips and assembly -/

/-- An audio asset: the text that was synthesized for it and the duration
moviepy decodes from the written file (`AudioFileClip(path).duration`). -/
structure AudioAsset where
  text : String
  duration : ℚ
  deriving DecidableEq, Repr

/-- A per-slide visual clip: the slide text drawn on the frame, held for a
duration.  `ImageSequenceClip([frame], durations=[aud.duration])
.set_duration(aud.duration)` sets the duration to the audio's. -/
structure Clip where
  frameText : String
  duration : ℚ
  deriving DecidableEq, Repr

/-- Build the clip for one (frame, audio) pair: the static frame is held for
exactly the audio asset's duration. -/
def mkClip (frameText : String) (aud : AudioAsset) : Clip :=
  ⟨frameText, aud.duration⟩

/-- `ClipAssembler` pairing step over all (frame, audio) pairs, in order. -/
def assembleClips (pairs : List (String × AudioAsset)) : List Clip :=
  pairs.map (fun p => mkClip p.1 p.2)

/-- Modelled from the spec: moviepy's `concatenate_videoclips` plays the clips
back to back, so the final video's duration is the sum of the clip
durations (the spec's §4.6 total-duration contract; `concatenate_videoclips`
itself is an external collaborator, not repository code). -/
def finalVideoDuration (clips : List Clip) : ℚ :=
  (clips.map Clip.duration).sum

/-- Python `list * n` (list repetition). -/
def listMul (l : List α) (n : Nat) : List α :=
  (List.replicate n l).flatten

/-- The audio asset `create_audio_with_gtts` + `AudioFileClip` produce for a
slide: gTTS is called on the normalized voiceover text, and the decoded
duration of the written file is a function of that text. -/
def mkAudio (audioDur : String → ℚ) (s : String) : AudioAsset :=
  ⟨voiceoverText s, audioDur (voiceoverText s)⟩

/-! ### Per-product generation runs -/

/-- Observable trace of one `create_video_for_product` call.
`imagesAfter` is the value of the caller's `images` list object after the
call returns (pipeline.py's `images *= n` mutates it in place; the service
version only rebinds a local name).  `usedImages` records, slide by slide,
the image dictionary selected for that slide.  `raised` is the uncaught
exception, if any, that aborts the call. -/
structure RunTrace (α : Type) where
  slides : List String
  imagesAfter : List α
  usedImages : List (Option α)
  audios : List AudioAsset
  clips : List Clip
  outputWritten : Bool
  raised : Option String

namespace Pipeline

/-- The value of the `images` variable after
`if len(images) < len(slides): images *= len(slides)//len(images) + 1`
(`*=` extends the caller's list object in place). -/
def extendedImages (images : List α) (numSlides : Nat) : List α :=
  if images.length < numSlides then listMul images (numSlides / images.length + 1)
  else images

/-- `create_video_for_product` of `src/pipeline.py`.  `transcript` is the
cleaned ChatGPT transcript (the external `TranscriptProvider` output),
`width` the body-font metric, `audioDur` the duration oracle for the audio
file gTTS writes for a given voiceover text.  Every slide is rendered and
synthesized (this version has no per-slide skip paths); the final video is
written iff at least one clip was produced.  With an empty `images` list and
a nonempty slide list, `len(slides)//len(images)` raises `ZeroDivisionError`
before the in-place `images *= ...` executes, so in that branch the caller's
list is untouched and nothing further runs. -/
def create_video_for_product (transcript : String) (width : String → Nat)
    (maxW maxLines : Nat) (images : List α) (audioDur : String → ℚ) : RunTrace α :=
  let slides := split_text_into_slides transcript width maxW maxLines
  if images.length < slides.length ∧ images.length = 0 then
    ⟨slides, images, [], [], [], false, some "ZeroDivisionError"⟩
  else
    let images' := extendedImages images slides.length
    let audios := slides.map (mkAudio audioDur)
    ⟨slides, images',
     (List.range slides.length).map (fun i => images'[i]?),
     audios,
     assembleClips (slides.zip audios),
     !slides.isEmpty,
     none⟩

end Pipeline

namespace Service

/-- The local `images` used by the loop after
`images = images if len(images) >= len(slides_text) else images * (...)`
(a rebinding: the caller's list object is never mutated). -/
def extendedImages (images : List α) (numSlides : Nat) : List α :=
  if numSlides ≤ images.length then images
  else listMul images (numSlides / images.length + 1)

/-- One iteration of the per-slide loop: the allocated image is
`images[i % len(images)]`; the slide is skipped (`continue`) when the image
dictionary has no (or an empty) `imageURL`, the download fails, or
`create_audio_with_gtts` returns `None`; otherwise an audio clip and a
rendered frame clip are appended. -/
def slideStep (images' : List α) (urlOf : α → Option String) (fetchOk : String → Bool)
    (synthOk : String → Bool) (audioDur : String → ℚ) (p : Nat × String) :
    Option (AudioAsset × Clip) :=
  match images'[p.1 % images'.length]? with
  | none => none
  | some img =>
      match urlOf img with
      | none => none
      | some url =>
          if url = "" then none
          else if !fetchOk url then none
          else if !synthOk (voiceoverText p.2) then none
          else some (mkAudio audioDur p.2, mkClip p.2 (mkAudio audioDur p.2))

/-- `create_video_for_product` of `src/video_generation_service.py`.
`fontOk` models whether `ImageFont.truetype` loads (on `OSError` the function
returns before doing anything).  `urlOf` is `img_data.get('imageURL')`,
`fetchOk` whether `requests.get` returns status 200, `synthOk` whether
`create_audio_with_gtts` succeeds (it returns `None` on failure and the
slide is skipped).  The hardcoded layout constants of the source are kept:
`max_width = 600`, `max_lines = 3`.  The caller's `images` list is never
mutated (the scarcity branch rebinds a local name only). -/
def create_video_for_product (transcript : String) (width : String → Nat)
    (images : List α) (urlOf : α → Option String) (fetchOk : String → Bool)
    (synthOk : String → Bool) (audioDur : String → ℚ) (fontOk : Bool) : RunTrace α :=
  if !fontOk then ⟨[], images, [], [], [], false, none⟩
  else
    let slides := split_text_into_slides transcript width 600 3
    if images.length < slides.length ∧ images.length = 0 then
      ⟨slides, images, [], [], [], false, some "ZeroDivisionError"⟩
    else
      let images' := extendedImages images slides.length
      let outs := slides.enum.map (slideStep images' urlOf fetchOk synthOk audioDur)
      ⟨slides, images,
       (List.range slides.length).map (fun i => images'[i % images'.length]?),
       (outs.filterMap id).map Prod.fst,
       (outs.filterMap id).map Prod.snd,
       !((outs.filterMap id) = []),
       none⟩

end Service

/-! ### Batch loop (`create_videos_and_blogs_from_csv`, `src/pipeline.py`) -/

/-- One row of the input CSV: a (listing_id, product_id) pair. -/
structure BatchRow where
  listing : String
  product : String
  deriving DecidableEq, Repr

/-- The product-sheet columns used by the batch loop. -/
structure ProdInfo where
  brand : String
  mpn : String
  description : String
  deriving DecidableEq, Repr

/-- Key of a batch row. -/
def BatchRow.key (r : BatchRow) : String × String := (r.listing, r.product)

namespace Pipeline

/-- `create_videos_and_blogs_from_csv` of `src/pipeline.py`.  `look` is the
images lookup built from `images_data`, `prodOf` the `products_df` row lookup,
and `gen` the per-product work (the `create_video_for_product` call followed
by the blog generation and file writes), which may raise.  Returns the keys
of the products fully processed, in order, together with the uncaught
exception (if any) that terminated the loop: the source wraps the body in no
`try`/`except`, so an exception from `gen` propagates and the remaining rows
are never visited, while the `continue` guards for missing images (a falsy
`images` value: `None` or `[]`) or a missing product row skip just that row. -/
def create_videos_and_blogs_from_csv (look : String × String → Option (List α))
    (prodOf : String × String → Option ProdInfo)
    (gen : String × String → String → String → List α → Except String Unit) :
    List BatchRow → List (String × String) × Option String
  | [] => ([], none)
  | r :: rest =>
      match look r.key with
      | none => create_videos_and_blogs_from_csv look prodOf gen rest
      | some images =>
          if images.isEmpty then create_videos_and_blogs_from_csv look prodOf gen rest
          else
            match prodOf r.key with
            | none => create_videos_and_blogs_from_csv look prodOf gen rest
            | some p =>
                match gen r.key (p.brand ++ " - " ++ p.mpn) p.description images with
                | .error e => ([r.key], some e)
                | .ok _ =>
                    let res := create_videos_and_blogs_from_csv look prodOf gen rest
                    (r.key :: res.1, res.2)

end Pipeline

/-! ### Lemmas about the tokenizer -/

lemma pyTokensAux_wf : ∀ (l acc : List Char), (∀ c ∈ acc, c.isWhitespace = false) →
    ∀ t ∈ pyTokensAux l acc, t ≠ [] ∧ ∀ c ∈ t, c.isWhitespace = false := by
  intro l
  induction l with
  | nil =>
      intro acc hacc t ht
      by_cases h : acc = []
      · simp [pyTokensAux, h] at ht
      · simp only [pyTokensAux, if_neg h, List.mem_singleton] at ht
        subst ht
        refine ⟨by simpa using h, ?_⟩
        intro c hc
        exact hacc c (List.mem_reverse.mp hc)
  | cons c cs ih =>
      intro acc hacc t ht
      by_cases hws : c.isWhitespace
      · by_cases h : acc = []
        · simp only [pyTokensAux, if_pos hws, if_pos h] at ht
          exact ih [] (by simp) t ht
        · simp only [pyTokensAux, if_pos hws, if_neg h, List.mem_cons] at ht
          rcases ht with rfl | ht
          · refine ⟨by simpa using h, ?_⟩
            intro a ha
            exact hacc a (List.mem_reverse.mp ha)
          · exact ih [] (by simp) t ht
      · simp only [pyTokensAux, if_neg hws] at ht
        refine ih (c :: acc) ?_ t ht
        intro a ha
        rcases List.mem_cons.mp ha with rfl | ha
        · simpa using hws
        · exact hacc a ha

lemma pySplit_wf (s : String) :
    ∀ w ∈ pySplit s, w.data ≠ [] ∧ ∀ c ∈ w.data, c.isWhitespace = false := by
  intro w hw
  simp only [pySplit, List.mem_map] at hw
  obtain ⟨t, ht, rfl⟩ := hw
  exact pyTokensAux_wf s.data [] (by simp) t ht

lemma pyTokensAux_split (d : Char) (hd : d.isWhitespace = true) (l₂ : List Char) :
    ∀ (l₁ acc : List Char),
    pyTokensAux (l₁ ++ d :: l₂) acc = pyTokensAux l₁ acc ++ pyTokensAux l₂ [] := by
  intro l₁
  induction l₁ with
  | nil =>
      intro acc
      by_cases h : acc = []
      · simp [pyTokensAux, hd, h]
      · simp [pyTokensAux, hd, h]
  | cons c cs ih =>
      intro acc
      by_cases hws : c.isWhitespace
      · by_cases h : acc = []
        · simp only [List.cons_append, pyTokensAux, if_pos hws, if_pos h]
          exact ih []
        · simp only [List.cons_append, pyTokensAux, if_pos hws, if_neg h]
          exact congrArg (acc.reverse :: ·) (ih [])
      · simp only [List.cons_append, pyTokensAux, if_neg hws]
        exact ih (c :: acc)

lemma pyTokensAux_word : ∀ (w acc : List Char), (∀ c ∈ w, c.isWhitespace = false) →
    pyTokensAux w acc = if acc.reverse ++ w = [] then [] else [acc.reverse ++ w] := by
  intro w
  induction w with
  | nil =>
      intro acc _
      by_cases h : acc = [] <;> simp [pyTokensAux, h]
  | cons c cs ih =>
      intro acc hwf
      have hc : c.isWhitespace = false := hwf c (by simp)
      simp only [pyTokensAux, hc, Bool.false_eq_true, if_false]
      rw [ih (c :: acc) (fun a ha => hwf a (List.mem_cons_of_mem _ ha))]
      simp

lemma pyTokens_word (w : List Char) (hne : w ≠ []) (hwf : ∀ c ∈ w, c.isWhitespace = false) :
    pyTokens w = [w] := by
  rw [pyTokens, pyTokensAux_word w [] hwf]
  simp [hne]

lemma data_append (s t : String) : (s ++ t).data = s.data ++ t.data := rfl

lemma pyTokens_joinSep (sep : String) (d : Char) (hsep : sep.data = [d])
    (hd : d.isWhitespace = true) :
    ∀ l : List String,
    pyTokens (joinSep sep l).data = (l.map (fun s => pyTokens s.data)).flatten := by
  intro l
  induction l with
  | nil => simp [joinSep, pyTokens, pyTokensAux]
  | cons x r ih =>
      match r with
      | [] => simp [joinSep]
      | y :: r' =>
          have hdata : (joinSep sep (x :: y :: r')).data
              = x.data ++ d :: (joinSep sep (y :: r')).data := by
            rw [joinSep]
            rw [data_append, data_append, hsep]
            simp [List.append_assoc]
          rw [hdata, pyTokens, pyTokensAux_split d hd _ x.data []]
          rw [← pyTokens, ← pyTokens, ih]
          simp

lemma pyTokens_lineStr (ws : List String)
    (hwf : ∀ w ∈ ws, w.data ≠ [] ∧ ∀ c ∈ w.data, c.isWhitespace = false) :
    pyTokens (lineStr ws).data = ws.map String.data := by
  rw [lineStr, pyTokens_joinSep " " ' ' rfl (by decide)]
  induction ws with
  | nil => simp
  | cons w ws ih =>
      simp only [List.map_cons, List.flatten_cons]
      rw [pyTokens_word w.data (hwf w (by simp)).1 (hwf w (by simp)).2]
      rw [ih (fun w hw => hwf w (List.mem_cons_of_mem _ hw))]
      simp

lemma string_mk_data (s : String) : String.mk s.data = s := rfl

lemma pySplit_lineStr (ws : List String)
    (hwf : ∀ w ∈ ws, w.data ≠ [] ∧ ∀ c ∈ w.data, c.isWhitespace = false) :
    pySplit (lineStr ws) = ws := by
  rw [pySplit, pyTokens_lineStr ws hwf, List.map_map]
  have hco : (fun t => String.mk t) ∘ String.data = fun w : String => w := by
    funext w
    rfl
  rw [hco]
  exact List.map_id ws

lemma pyTokens_slideStr (sl : List (List String))
    (hwf : ∀ lws ∈ sl, ∀ w ∈ lws, w.data ≠ [] ∧ ∀ c ∈ w.data, c.isWhitespace = false) :
    pyTokens (slideStr sl).data = (sl.flatten).map String.data := by
  rw [slideStr, pyTokens_joinSep "\n" '\n' rfl (by decide)]
  induction sl with
  | nil => simp
  | cons lws sl ih =>
      simp only [List.map_cons, List.flatten_cons, List.map_append]
      rw [pyTokens_lineStr lws (hwf lws (by simp))]
      rw [ih (fun l hl => hwf l (List.mem_cons_of_mem _ hl))]

/-! ### Lemmas about the greedy wrap -/

lemma wrapAux_flatten (width : String → Nat) (maxW : Nat) :
    ∀ (ws cur : List String), (wrapAux width maxW ws cur).flatten = cur ++ ws := by
  intro ws
  induction ws with
  | nil =>
      intro cur
      by_cases h : cur = [] <;> simp [wrapAux, h]
  | cons w ws ih =>
      intro cur
      rw [wrapAux]
      by_cases h : width (lineStr (cur ++ [w]) ++ " ") ≤ maxW
      · rw [if_pos h, ih]
        simp
      · rw [if_neg h]
        simp only [List.flatten_cons, ih]
        simp

lemma wrapAux_ne_nil_of_cur (width : String → Nat) (maxW : Nat) :
    ∀ (ws cur : List String), cur ≠ [] → wrapAux width maxW ws cur ≠ [] := by
  intro ws
  induction ws with
  | nil => intro cur h; simp [wrapAux, h]
  | cons w ws ih =>
      intro cur h
      rw [wrapAux]
      by_cases hw : width (lineStr (cur ++ [w]) ++ " ") ≤ maxW
      · rw [if_pos hw]
        exact ih (cur ++ [w]) (by simp)
      · rw [if_neg hw]
        simp

lemma wrapAux_ne_nil (width : String → Nat) (maxW : Nat) (ws cur : List String)
    (h : ws ≠ []) : wrapAux width maxW ws cur ≠ [] := by
  match ws with
  | [] => exact absurd rfl h
  | w :: ws =>
      rw [wrapAux]
      by_cases hw : width (lineStr (cur ++ [w]) ++ " ") ≤ maxW
      · rw [if_pos hw]
        exact wrapAux_ne_nil_of_cur width maxW ws (cur ++ [w]) (by simp)
      · rw [if_neg hw]
        simp

lemma wrapAux_inv (width : String → Nat) (maxW : Nat) :
    ∀ (ws cur : List String),
    (cur.length ≤ 1 ∨ width (lineStr cur ++ " ") ≤ maxW) →
    ∀ L ∈ wrapAux width maxW ws cur, L.length ≤ 1 ∨ width (lineStr L ++ " ") ≤ maxW := by
  intro ws
  induction ws with
  | nil =>
      intro cur hcur L hL
      by_cases h : cur = []
      · simp [wrapAux, h] at hL
      · simp only [wrapAux, if_neg h, List.mem_singleton] at hL
        subst hL
        exact hcur
  | cons w ws ih =>
      intro cur hcur L hL
      rw [wrapAux] at hL
      by_cases hw : width (lineStr (cur ++ [w]) ++ " ") ≤ maxW
      · rw [if_pos hw] at hL
        exact ih (cur ++ [w]) (Or.inr hw) L hL
      · rw [if_neg hw] at hL
        rcases List.mem_cons.mp hL with rfl | hL
        · exact hcur
        · exact ih [w] (Or.inl (by simp)) L hL

/-! ### Lemmas about pagination (`chunk`) -/

lemma drop_len_le (x : α) (xs : List α) (m k : Nat) (hl : (x :: xs).length ≤ k + 1) :
    ((x :: xs).drop (m + 1)).length ≤ k := by
  rw [List.length_drop]
  simp only [List.length_cons] at hl ⊢
  omega

lemma chunk_flatten_fuel (n : Nat) :
    ∀ (k : Nat) (l : List α), l.length ≤ k → (chunk n l).flatten = l := by
  intro k
  induction k with
  | zero =>
      intro l hl
      have : l = [] := List.length_eq_zero.mp (Nat.le_zero.mp hl)
      subst this
      simp [chunk_nil]
  | succ k ih =>
      intro l hl
      match l with
      | [] => simp [chunk_nil]
      | x :: xs =>
          match n with
          | 0 => simp [chunk_zero_cons]
          | m + 1 =>
              rw [chunk_succ_cons]
              simp only [List.flatten_cons]
              rw [ih ((x :: xs).drop (m + 1)) (drop_len_le x xs m k hl)]
              exact List.take_append_drop _ _

lemma chunk_flatten (n : Nat) (l : List α) : (chunk n l).flatten = l :=
  chunk_flatten_fuel n l.length l le_rfl

lemma chunk_mem_fuel (n : Nat) (hn : 1 ≤ n) :
    ∀ (k : Nat) (l : List α), l.length ≤ k →
    ∀ s ∈ chunk n l, s ≠ [] ∧ s.length ≤ n := by
  intro k
  induction k with
  | zero =>
      intro l hl s hs
      have : l = [] := List.length_eq_zero.mp (Nat.le_zero.mp hl)
      subst this
      simp [chunk_nil] at hs
  | succ k ih =>
      intro l hl s hs
      match l with
      | [] => simp [chunk_nil] at hs
      | x :: xs =>
          match n with
          | 0 => exact absurd hn (by omega)
          | m + 1 =>
              rw [chunk_succ_cons] at hs
              rcases List.mem_cons.mp hs with rfl | hs
              · constructor
                · simp
                · rw [List.length_take]
                  omega
              · exact ih ((x :: xs).drop (m + 1)) (drop_len_le x xs m k hl) s hs

lemma chunk_mem (n : Nat) (hn : 1 ≤ n) (l : List α) :
    ∀ s ∈ chunk n l, s ≠ [] ∧ s.length ≤ n :=
  chunk_mem_fuel n hn l.length l le_rfl

lemma chunk_dropLast_fuel (n : Nat) (hn : 1 ≤ n) :
    ∀ (k : Nat) (l : List α), l.length ≤ k →
    ∀ s ∈ (chunk n l).dropLast, s.length = n := by
  intro k
  induction k with
  | zero =>
      intro l hl s hs
      have : l = [] := List.length_eq_zero.mp (Nat.le_zero.mp hl)
      subst this
      simp [chunk_nil] at hs
  | succ k ih =>
      intro l hl s hs
      match l with
      | [] => simp [chunk_nil] at hs
      | x :: xs =>
          match n with
          | 0 => exact absurd hn (by omega)
          | m + 1 =>
              rw [chunk_succ_cons] at hs
              by_cases hrest : (x :: xs).drop (m + 1) = []
              · rw [hrest] at hs
                simp [chunk_nil] at hs
              · have hlen : m + 1 < (x :: xs).length := by
                  by_contra hcon
                  exact hrest (List.drop_eq_nil_of_le (by omega))
                have hch : chunk (m + 1) ((x :: xs).drop (m + 1)) ≠ [] := by
                  intro hc
                  have := chunk_flatten (m + 1) ((x :: xs).drop (m + 1))
                  rw [hc] at this
                  exact hrest (by simpa using this.symm)
                rw [List.dropLast_cons_of_ne_nil hch] at hs
                rcases List.mem_cons.mp hs with rfl | hs
                · rw [List.length_take]
                  omega
                · exact ih ((x :: xs).drop (m + 1)) (drop_len_le x xs m k hl) s hs

lemma chunk_dropLast (n : Nat) (hn : 1 ≤ n) (l : List α) :
    ∀ s ∈ (chunk n l).dropLast, s.length = n :=
  chunk_dropLast_fuel n hn l.length l le_rfl

lemma chunk_eq_nil_iff (n : Nat) (l : List α) : chunk n l = [] ↔ l = [] := by
  constructor
  · intro h
    have := chunk_flatten n l
    rw [h] at this
    simpa using this.symm
  · intro h
    subst h
    simp [chunk_nil]

lemma chunk_append (n : Nat) (hn : 1 ≤ n) (l₁ l₂ : List α) (hlen : l₁.length = n) :
    chunk n (l₁ ++ l₂) = l₁ :: chunk n l₂ := by
  match n, l₁ with
  | _, [] => simp at hlen; omega
  | m + 1, a :: l₁ =>
      have : (a :: l₁) ++ l₂ = a :: (l₁ ++ l₂) := rfl
      rw [this, chunk_succ_cons]
      rw [show a :: (l₁ ++ l₂) = (a :: l₁) ++ l₂ from rfl]
      rw [List.take_left' hlen, List.drop_left' hlen]

lemma chunk_of_le (n : Nat) (l : List α) (hne : l ≠ []) (hle : l.length ≤ n) :
    chunk n l = [l] := by
  match n, l with
  | _, [] => exact absurd rfl hne
  | 0, a :: l => simp at hle
  | m + 1, a :: l =>
      rw [chunk_succ_cons]
      rw [List.take_of_length_le hle, List.drop_eq_nil_of_le hle]
      simp [chunk_nil]

/-! ### The two segmenters compute the same slides -/

lemma svcAux_eq_chunk (width : String → Nat) (maxW maxLines : Nat) (hml : 1 ≤ maxLines) :
    ∀ (ws cur : List String) (csl : List (List String)), csl.length < maxLines →
    Service.svcAux width maxW maxLines ws cur csl
      = chunk maxLines (csl ++ wrapAux width maxW ws cur) := by
  intro ws
  induction ws with
  | nil =>
      intro cur csl hcsl
      rw [Service.svcAux, wrapAux]
      by_cases hcur : cur = []
      · rw [if_pos hcur, if_pos hcur]
        by_cases hc : csl = []
        · simp [hc, chunk_nil]
        · rw [if_neg hc]
          rw [List.append_nil]
          exact (chunk_of_le maxLines csl hc (by omega)).symm
      · rw [if_neg hcur, if_neg hcur]
        have hne : csl ++ [cur] ≠ [] := by simp
        rw [if_neg hne]
        exact (chunk_of_le maxLines (csl ++ [cur]) hne (by simp; omega)).symm
  | cons w ws ih =>
      intro cur csl hcsl
      rw [Service.svcAux, wrapAux]
      by_cases hw : width (lineStr (cur ++ [w]) ++ " ") ≤ maxW
      · rw [if_pos hw, if_pos hw]
        exact ih (cur ++ [w]) csl hcsl
      · rw [if_neg hw, if_neg hw]
        by_cases hfull : maxLines ≤ (csl ++ [cur]).length
        · rw [if_pos hfull]
          have hlen : (csl ++ [cur]).length = maxLines := by simp at hfull ⊢; omega
          rw [ih [w] [] (by simpa using hml)]
          rw [show csl ++ cur :: wrapAux width maxW ws [w]
              = (csl ++ [cur]) ++ wrapAux width maxW ws [w] by simp]
          rw [chunk_append maxLines hml _ _ hlen]
          simp
        · rw [if_neg hfull]
          rw [ih [w] (csl ++ [cur]) (by simp at hfull ⊢; omega)]
          simp

lemma service_slidesCore_eq (text : String) (width : String → Nat) (maxW maxLines : Nat)
    (hml : 1 ≤ maxLines) :
    Service.slidesCore text width maxW maxLines = Pipeline.slidesCore text width maxW maxLines := by
  rw [Service.slidesCore, Pipeline.slidesCore,
    svcAux_eq_chunk width maxW maxLines hml (pySplit text) [] [] (by simpa using hml)]
  simp

/-! ### Lemmas about cyclic image allocation (`list * n`) -/

lemma listMul_length (l : List α) (n : Nat) : (listMul l n).length = n * l.length := by
  induction n with
  | zero => simp [listMul]
  | succ n ih =>
      simp only [listMul, List.replicate_succ, List.flatten_cons, List.length_append]
      rw [← listMul, ih]
      ring

lemma listMul_getElem? (l : List α) : ∀ (n i : Nat), i < n * l.length →
    (listMul l n)[i]? = l[i % l.length]? := by
  intro n
  induction n with
  | zero => intro i hi; omega
  | succ n ih =>
      intro i hi
      have hstep : listMul l (n + 1) = l ++ listMul l n := by
        simp [listMul, List.replicate_succ]
      rw [hstep]
      by_cases hil : i < l.length
      · rw [List.getElem?_append_left hil, Nat.mod_eq_of_lt hil]
      · have hle : l.length ≤ i := by omega
        rw [List.getElem?_append_right hle]
        have hlt : i - l.length < n * l.length := by
          have hsm : (n + 1) * l.length = n * l.length + l.length := by ring
          omega
        rw [ih (i - l.length) hlt]
        rw [Nat.mod_eq_sub_mod hle]

/-! ### Lemmas about the hyphen normalization -/

lemma isAlnum_dash : isAlnum '-' = false := by decide

lemma isAlnum_ne_dash {c : Char} (h : isAlnum c = true) : c ≠ '-' := by
  intro hc
  subst hc
  exact absurd h (by decide)

lemma takeWhile_alnum_append (a l : List Char) (ha : ∀ c ∈ a, isAlnum c = true) :
    (a ++ l).takeWhile isAlnum = a ++ l.takeWhile isAlnum := by
  induction a with
  | nil => simp
  | cons c a ih =>
      simp only [List.cons_append, List.takeWhile_cons, ha c (by simp), if_true]
      rw [ih (fun x hx => ha x (List.mem_cons_of_mem _ hx))]

lemma dropWhile_alnum_append (a l : List Char) (ha : ∀ c ∈ a, isAlnum c = true) :
    (a ++ l).dropWhile isAlnum = l.dropWhile isAlnum := by
  induction a with
  | nil => simp
  | cons c a ih =>
      simp only [List.cons_append, List.dropWhile_cons, ha c (by simp), if_true]
      exact ih (fun x hx => ha x (List.mem_cons_of_mem _ hx))

lemma takeWhile_alnum_all (a : List Char) (ha : ∀ c ∈ a, isAlnum c = true) :
    a.takeWhile isAlnum = a := by
  have := takeWhile_alnum_append a [] ha
  simpa using this

lemma dropWhile_alnum_all (a : List Char) (ha : ∀ c ∈ a, isAlnum c = true) :
    a.dropWhile isAlnum = [] := by
  have := dropWhile_alnum_append a [] ha
  simpa using this

lemma replaceDash_append (r a b : List Char) :
    replaceDash r (a ++ b) = replaceDash r a ++ replaceDash r b := by
  induction a with
  | nil => simp [replaceDash]
  | cons c a ih => simp [replaceDash, ih, List.append_assoc]

lemma replaceDash_no_dash (r a : List Char) (ha : ∀ c ∈ a, c ≠ '-') :
    replaceDash r a = a := by
  induction a with
  | nil => simp [replaceDash]
  | cons c a ih =>
      rw [replaceDash, if_neg (ha c (by simp)), ih (fun x hx => ha x (List.mem_cons_of_mem _ hx))]
      simp

lemma replaceDash_token (r a b : List Char) (hala : ∀ c ∈ a, isAlnum c = true)
    (halb : ∀ c ∈ b, isAlnum c = true) :
    replaceDash r (a ++ '-' :: b) = a ++ r ++ b := by
  rw [replaceDash_append, replaceDash_no_dash r a (fun c hc => isAlnum_ne_dash (hala c hc))]
  rw [replaceDash, if_pos rfl, replaceDash_no_dash r b (fun c hc => isAlnum_ne_dash (halb c hc))]
  simp [List.append_assoc]

/-- On a standalone token `a-b` (both runs nonempty, alphanumeric), the
regex substitution fires exactly once and rewrites the whole token. -/
lemma hyphenSub_token (a b : List Char) (ha : a ≠ []) (hb : b ≠ [])
    (hala : ∀ c ∈ a, isAlnum c = true) (halb : ∀ c ∈ b, isAlnum c = true) :
    hyphenSub (a ++ '-' :: b) = hyphenRepl (a ++ '-' :: b) := by
  match a, ha with
  | a0 :: a', _ =>
      have ha0 : isAlnum a0 = true := hala a0 (by simp)
      have ha' : ∀ c ∈ a', isAlnum c = true := fun c hc => hala c (List.mem_cons_of_mem _ hc)
      have hdrop : List.dropWhile isAlnum (a0 :: (a' ++ '-' :: b)) = '-' :: b := by
        rw [show a0 :: (a' ++ '-' :: b) = (a0 :: a') ++ '-' :: b from rfl]
        rw [dropWhile_alnum_append (a0 :: a') ('-' :: b) hala]
        rw [List.dropWhile_cons, isAlnum_dash]
        simp
      have htake : List.takeWhile isAlnum (a0 :: (a' ++ '-' :: b)) = a0 :: a' := by
        rw [show a0 :: (a' ++ '-' :: b) = (a0 :: a') ++ '-' :: b from rfl]
        rw [takeWhile_alnum_append (a0 :: a') ('-' :: b) hala]
        rw [List.takeWhile_cons, isAlnum_dash]
        simp
      have htakeb : List.takeWhile isAlnum b = b := takeWhile_alnum_all b halb
      have hdropb : List.dropWhile isAlnum b = [] := dropWhile_alnum_all b halb
      rw [hyphenSub]
      rw [show ((a0 :: a') ++ '-' :: b) = a0 :: (a' ++ '-' :: b) from rfl]
      rw [List.length_cons, hyphenSubF]
      rw [if_pos ha0, hdrop]
      simp only [if_true]
      rw [htakeb, hdropb]
      have hbne : ¬ b = [] := hb
      rw [if_neg hbne, htake]
      have hnil : hyphenSubF (a' ++ '-' :: b).length [] = [] := by
        cases h : (a' ++ '-' :: b).length <;> rfl
      rw [hnil]
      simp

/-! ### Lemmas about the per-product runs -/

lemma pipeline_run_eq (transcript : String) (width : String → Nat) (maxW maxLines : Nat)
    (images : List α) (audioDur : String → ℚ)
    (hno : ¬(images.length < (Pipeline.split_text_into_slides transcript width maxW maxLines).length
              ∧ images.length = 0)) :
    Pipeline.create_video_for_product transcript width maxW maxLines images audioDur
      = ⟨Pipeline.split_text_into_slides transcript width maxW maxLines,
         Pipeline.extendedImages images
           (Pipeline.split_text_into_slides transcript width maxW maxLines).length,
         (List.range (Pipeline.split_text_into_slides transcript width maxW maxLines).length).map
           (fun i => (Pipeline.extendedImages images
             (Pipeline.split_text_into_slides transcript width maxW maxLines).length)[i]?),
         (Pipeline.split_text_into_slides transcript width maxW maxLines).map (mkAudio audioDur),
         assembleClips ((Pipeline.split_text_into_slides transcript width maxW maxLines).zip
           ((Pipeline.split_text_into_slides transcript width maxW maxLines).map (mkAudio audioDur))),
         !(Pipeline.split_text_into_slides transcript width maxW maxLines).isEmpty,
         none⟩ := by
  simp only [Pipeline.create_video_for_product]
  rw [if_neg hno]

lemma service_run_eq (transcript : String) (width : String → Nat) (images : List α)
    (urlOf : α → Option String) (fetchOk synthOk : String → Bool) (audioDur : String → ℚ)
    (hno : ¬(images.length < (Service.split_text_into_slides transcript width 600 3).length
              ∧ images.length = 0)) :
    Service.create_video_for_product transcript width images urlOf fetchOk synthOk audioDur true
      = ⟨Service.split_text_into_slides transcript width 600 3, images,
         (List.range (Service.split_text_into_slides transcript width 600 3).length).map
           (fun i => (Service.extendedImages images
              (Service.split_text_into_slides transcript width 600 3).length)[i %
                (Service.extendedImages images
                  (Service.split_text_into_slides transcript width 600 3).length).length]?),
         ((((Service.split_text_into_slides transcript width 600 3).enum.map
            (Service.slideStep (Service.extendedImages images
                (Service.split_text_into_slides transcript width 600 3).length)
              urlOf fetchOk synthOk audioDur)).filterMap id).map Prod.fst),
         ((((Service.split_text_into_slides transcript width 600 3).enum.map
            (Service.slideStep (Service.extendedImages images
                (Service.split_text_into_slides transcript width 600 3).length)
              urlOf fetchOk synthOk audioDur)).filterMap id).map Prod.snd),
         !((((Service.split_text_into_slides transcript width 600 3).enum.map
            (Service.slideStep (Service.extendedImages images
                (Service.split_text_into_slides transcript width 600 3).length)
              urlOf fetchOk synthOk audioDur)).filterMap id) = []),
         none⟩ := by
  simp only [Service.create_video_for_product, Bool.not_true]
  rw [if_neg (by simp), if_neg hno]

lemma lt_extended_bound (S K : Nat) (hK : 1 ≤ K) : S < (S / K + 1) * K := by
  have h1 : K * (S / K) + S % K = S := Nat.div_add_mod S K
  have h2 : S % K < K := Nat.mod_lt _ (by omega)
  calc S = K * (S / K) + S % K := h1.symm
    _ < K * (S / K) + K := by omega
    _ = (S / K + 1) * K := by ring

lemma extendedImages_getElem? (images : List α) (S i : Nat) (hK : 1 ≤ images.length)
    (hi : i < S) :
    (Pipeline.extendedImages images S)[i]? = images[i % images.length]? := by
  rw [Pipeline.extendedImages]
  by_cases hlt : images.length < S
  · rw [if_pos hlt]
    refine listMul_getElem? images _ i ?_
    exact lt_of_lt_of_le hi (le_of_lt (lt_extended_bound S images.length hK))
  · rw [if_neg hlt]
    have hiK : i < images.length := by omega
    rw [Nat.mod_eq_of_lt hiK]

lemma extendedImages_length (images : List α) (S : Nat) (hK : 1 ≤ images.length) :
    1 ≤ (Pipeline.extendedImages images S).length
    ∧ (S ≤ images.length ∨ S < (Pipeline.extendedImages images S).length) := by
  rw [Pipeline.extendedImages]
  by_cases hlt : images.length < S
  · rw [if_pos hlt, listMul_length]
    have hb := lt_extended_bound S images.length hK
    constructor
    · nlinarith
    · right
      exact hb
  · rw [if_neg hlt]
    exact ⟨hK, Or.inl (by omega)⟩

lemma service_extendedImages_eq (images : List α) (S : Nat) :
    Service.extendedImages images S = Pipeline.extendedImages images S := by
  rw [Service.extendedImages, Pipeline.extendedImages]
  by_cases hle : S ≤ images.length
  · rw [if_pos hle, if_neg (by omega)]
  · rw [if_neg hle, if_pos (by omega)]

lemma extendedImages_idem_getElem? (images : List α) (S i : Nat) (hK : 1 ≤ images.length)
    (hi : i < S) :
    (Pipeline.extendedImages (Pipeline.extendedImages images S) S)[i]?
      = images[i % images.length]? := by
  by_cases hlt : images.length < S
  · have hexp : Pipeline.extendedImages images S
        = listMul images (S / images.length + 1) := by
      rw [Pipeline.extendedImages, if_pos hlt]
    have hlen : S < (Pipeline.extendedImages images S).length := by
      rw [hexp, listMul_length]
      exact lt_extended_bound S images.length hK
    rw [Pipeline.extendedImages, if_neg (by omega)]
    rw [hexp]
    refine listMul_getElem? images _ i ?_
    rw [hexp, listMul_length] at hlen
    omega
  · have hid : Pipeline.extendedImages images S = images := by
      rw [Pipeline.extendedImages, if_neg hlt]
    rw [hid]
    exact extendedImages_getElem? images S i hK hi

/-! ### Claim C1 — wrap invariant -/

/-- Claim C1, counterexample.  The claim states that every line produced by
the segmenter has rendered width at most `max_width`, *including* when the
input contains a single word wider than `max_width`.  With the width metric
`String.length` and budget 3, the single over-wide word "hello" is emitted
as a line of its own (preceded by the flush of the empty current line), and
that line has width 5 > 3, so the claim is false as stated. -/
theorem claim_C1_counterexample :
    Pipeline.split_text "hello" (fun s => s.length) 3 = ["", "hello"]
    ∧ ¬ ((fun s : String => s.length) "hello" ≤ 3) := by
  constructor
  · rfl
  · decide

/-- Claim C1, amended.  For every narration text, every font metric `width`
that does not shrink when a trailing space is appended, and every width
budget: each line produced by `split_text` either has `width line ≤ maxW` or
consists of at most one word (a word wider than the budget is placed alone
on its own line, and the flush that precedes it may emit an empty line);
the same holds for every line of every slide of `split_text_into_slides`. -/
theorem claim_C1_amended (text : String) (width : String → Nat) (maxW maxLines : Nat)
    (hmono : ∀ s, width s ≤ width (s ++ " ")) :
    (∀ line ∈ Pipeline.split_text text width maxW,
        width line ≤ maxW ∨ (pySplit line).length ≤ 1)
    ∧ (∀ slide ∈ Pipeline.slidesCore text width maxW maxLines,
        ∀ lws ∈ slide, width (lineStr lws) ≤ maxW ∨ lws.length ≤ 1) := by
  have hinv : ∀ L ∈ wrapAux width maxW (pySplit text) [],
      L.length ≤ 1 ∨ width (lineStr L ++ " ") ≤ maxW :=
    wrapAux_inv width maxW (pySplit text) [] (Or.inl (by simp))
  have hmem : ∀ L ∈ wrapAux width maxW (pySplit text) [], ∀ w ∈ L,
      w.data ≠ [] ∧ ∀ c ∈ w.data, c.isWhitespace = false := by
    intro L hL w hw
    refine pySplit_wf text w ?_
    have := wrapAux_flatten width maxW (pySplit text) []
    rw [List.nil_append] at this
    rw [← this]
    exact List.mem_flatten_of_mem hL hw
  constructor
  · intro line hline
    rw [Pipeline.split_text, List.mem_map] at hline
    obtain ⟨L, hL, rfl⟩ := hline
    rcases hinv L hL with h1 | h2
    · right
      rw [pySplit_lineStr L (hmem L hL)]
      exact h1
    · left
      exact le_trans (hmono (lineStr L)) h2
  · intro slide hslide lws hlws
    have hLmem : lws ∈ wrapAux width maxW (pySplit text) [] := by
      have hfl := chunk_flatten maxLines (wrapAux width maxW (pySplit text) [])
      rw [← hfl]
      exact List.mem_flatten_of_mem hslide hlws
    rcases hinv lws hLmem with h1 | h2
    · exact Or.inr h1
    · exact Or.inl (le_trans (hmono (lineStr lws)) h2)

/-- Claim C1, witness for the amended theorem at a concrete input: the line
"Buy now" produced for the narration "Buy now today" under budget 9. -/
theorem claim_C1_witness :
    String.length "Buy now" ≤ 9 ∨ (pySplit "Buy now").length ≤ 1 :=
  (claim_C1_amended "Buy now today" String.length 9 2
    (fun s => by rw [String.length_append]; omega)).1 "Buy now" (by decide)

/-! ### Claim C2 — coverage -/

/-- Claim C2, confirmed.  Splitting on whitespace the (space-joined)
concatenation of all slides returned by `split_text_into_slides` recovers
exactly the whitespace tokenization of the original narration: no word is
dropped and none is duplicated, for every text, font metric and budgets. -/
theorem claim_C2_coverage (text : String) (width : String → Nat) (maxW maxLines : Nat)
    (hml : 1 ≤ maxLines) :
    pySplit (joinSep " " (Pipeline.split_text_into_slides text width maxW maxLines))
      = pySplit text := by
  have hflat2 : (Pipeline.slidesCore text width maxW maxLines).flatten.flatten
      = pySplit text := by
    rw [Pipeline.slidesCore, chunk_flatten, wrapAux_flatten]
    simp
  have hwf : ∀ sl ∈ Pipeline.slidesCore text width maxW maxLines, ∀ lws ∈ sl, ∀ w ∈ lws,
      w.data ≠ [] ∧ ∀ c ∈ w.data, c.isWhitespace = false := by
    intro sl hsl lws hlws w hw
    refine pySplit_wf text w ?_
    rw [← hflat2]
    exact List.mem_flatten_of_mem (List.mem_flatten_of_mem hsl hlws) hw
  rw [Pipeline.split_text_into_slides, pySplit,
    pyTokens_joinSep " " ' ' rfl (by decide), List.map_map]
  have hmap : (Pipeline.slidesCore text width maxW maxLines).map
        ((fun s => pyTokens s.data) ∘ slideStr)
      = (Pipeline.slidesCore text width maxW maxLines).map
        (fun sl => (sl.flatten).map String.data) :=
    List.map_congr_left (fun sl hsl => pyTokens_slideStr sl (hwf sl hsl))
  rw [hmap]
  have hfactor : (Pipeline.slidesCore text width maxW maxLines).map
        (fun sl => (sl.flatten).map String.data)
      = ((Pipeline.slidesCore text width maxW maxLines).map List.flatten).map
        (List.map String.data) := by
    rw [List.map_map]
    rfl
  rw [hfactor, ← List.map_flatten, ← List.flatten_flatten, hflat2]
  rw [List.map_map]
  have hco : (fun t => String.mk t) ∘ String.data = fun w : String => w := by
    funext w
    rfl
  rw [hco]
  exact List.map_id _

/-- Claim C2, witness at a concrete input. -/
theorem claim_C2_witness :
    pySplit (joinSep " " (Pipeline.split_text_into_slides "aa bb cc" String.length 5 2))
      = pySplit "aa bb cc" :=
  claim_C2_coverage "aa bb cc" String.length 5 2 (by decide)

/-! ### Claim C6 — pagination invariant -/

/-- Claim C6, confirmed.  For every nonempty tokenized narration and every
`max_lines ≥ 1`: every slide except possibly the last has exactly
`max_lines` lines, every slide (in particular the last) has between 1 and
`max_lines` lines, at least one slide is produced, and the service
implementation produces the same slides so the invariant holds for it
too. -/
theorem claim_C6_pagination (text : String) (width : String → Nat) (maxW maxLines : Nat)
    (hml : 1 ≤ maxLines) (hne : pySplit text ≠ []) :
    (∀ s ∈ (Pipeline.slidesCore text width maxW maxLines).dropLast, s.length = maxLines)
    ∧ (∀ s ∈ Pipeline.slidesCore text width maxW maxLines,
        1 ≤ s.length ∧ s.length ≤ maxLines)
    ∧ Pipeline.slidesCore text width maxW maxLines ≠ []
    ∧ Service.slidesCore text width maxW maxLines
        = Pipeline.slidesCore text width maxW maxLines := by
  refine ⟨chunk_dropLast maxLines hml _, ?_, ?_,
    service_slidesCore_eq text width maxW maxLines hml⟩
  · intro s hs
    have hsm := chunk_mem maxLines hml _ s hs
    exact ⟨List.length_pos.mpr hsm.1, hsm.2⟩
  · rw [Pipeline.slidesCore, Ne, chunk_eq_nil_iff]
    exact wrapAux_ne_nil width maxW (pySplit text) [] hne

/-- Claim C6, witness at a concrete input: for the narration "aa bb cc dd"
under budget 5 with 2 lines per slide, the non-final slide has exactly 2
lines, at least one slide exists, and the two implementations agree. -/
theorem claim_C6_witness :
    ([["aa"], ["bb"]] : List (List String)).length = 2
    ∧ Pipeline.slidesCore "aa bb cc dd" String.length 5 2 ≠ []
    ∧ Service.slidesCore "aa bb cc dd" String.length 5 2
        = Pipeline.slidesCore "aa bb cc dd" String.length 5 2 :=
  ⟨(claim_C6_pagination "aa bb cc dd" String.length 5 2 (by decide) (by decide)).1
      [["aa"], ["bb"]] (by decide),
   (claim_C6_pagination "aa bb cc dd" String.length 5 2 (by decide) (by decide)).2.2.1,
   (claim_C6_pagination "aa bb cc dd" String.length 5 2 (by decide) (by decide)).2.2.2⟩

/-! ### Claim C10 — the two segmenters agree -/

/-- Claim C10, confirmed.  For every text, font metric, width budget, and
`max_lines ≥ 1`, the two `split_text_into_slides` implementations
(`src/pipeline.py`: wrap all lines first, then chunk; and
`src/video_generation_service.py`: close each slide inline) return exactly
the same list of slide strings. -/
theorem claim_C10_equivalence (text : String) (width : String → Nat) (maxW maxLines : Nat)
    (hml : 1 ≤ maxLines) :
    Pipeline.split_text_into_slides text width maxW maxLines
      = Service.split_text_into_slides text width maxW maxLines := by
  rw [Pipeline.split_text_into_slides, Service.split_text_into_slides,
    service_slidesCore_eq text width maxW maxLines hml]

/-- Claim C10, witness at a concrete input. -/
theorem claim_C10_witness :
    Pipeline.split_text_into_slides "aa bb cc dd ee" String.length 5 2
      = Service.split_text_into_slides "aa bb cc dd ee" String.length 5 2 :=
  claim_C10_equivalence "aa bb cc dd ee" String.length 5 2 (by decide)

/-! ### Claim C3 — empty narration -/

/-- Claim C3, counterexample.  The claim states that with zero slides the
per-product operation raises a fatal `EmptyNarrationError` before any
rendering or synthesis call, *rather than completing silently without
output*.  Neither source defines any such error: on the empty narration both
implementations return normally (`raised = none`), synthesize nothing,
render nothing, and write no output file — exactly the silent completion the
claim rules out. -/
theorem claim_C3_counterexample :
    (Pipeline.create_video_for_product "" (fun s => s.length) 3 1 ([0] : List Nat)
        (fun _ => 1)).raised = none
    ∧ (Pipeline.create_video_for_product "" (fun s => s.length) 3 1 ([0] : List Nat)
        (fun _ => 1)).outputWritten = false
    ∧ (Pipeline.create_video_for_product "" (fun s => s.length) 3 1 ([0] : List Nat)
        (fun _ => 1)).audios = []
    ∧ (Pipeline.create_video_for_product "" (fun s => s.length) 3 1 ([0] : List Nat)
        (fun _ => 1)).clips = []
    ∧ (Service.create_video_for_product "" (fun s => s.length) ([0] : List Nat)
        (fun _ => some "u") (fun _ => true) (fun _ => true) (fun _ => 1) true).raised = none
    ∧ (Service.create_video_for_product "" (fun s => s.length) ([0] : List Nat)
        (fun _ => some "u") (fun _ => true) (fun _ => true) (fun _ => 1) true).outputWritten
        = false :=
  ⟨rfl, rfl, rfl, rfl, rfl, rfl⟩

/-- Claim C3, amended.  When segmentation yields zero slides (the narration
has no words), both `create_video_for_product` implementations attempt no
synthesis and no rendering, write no output file, leave the caller's images
list untouched, and return normally — no `EmptyNarrationError` (or any
error) is raised, because no such error exists in the code. -/
theorem claim_C3_amended (transcript : String) (width : String → Nat) (maxW maxLines : Nat)
    (images : List α) (audioDur : String → ℚ) (urlOf : α → Option String)
    (fetchOk synthOk : String → Bool) (h : pySplit transcript = []) :
    Pipeline.create_video_for_product transcript width maxW maxLines images audioDur
      = ⟨[], images, [], [], [], false, none⟩
    ∧ Service.create_video_for_product transcript width images urlOf fetchOk synthOk
        audioDur true
      = ⟨[], images, [], [], [], false, none⟩ := by
  have hp : Pipeline.split_text_into_slides transcript width maxW maxLines = [] := by
    rw [Pipeline.split_text_into_slides, Pipeline.slidesCore, h]
    simp [wrapAux, chunk_nil]
  have hs : Service.split_text_into_slides transcript width 600 3 = [] := by
    rw [Service.split_text_into_slides, Service.slidesCore, h]
    simp [Service.svcAux]
  constructor
  · rw [pipeline_run_eq transcript width maxW maxLines images audioDur (by rw [hp]; simp), hp]
    simp [Pipeline.extendedImages, assembleClips]
  · rw [service_run_eq transcript width images urlOf fetchOk synthOk audioDur
      (by rw [hs]; simp), hs]
    simp [Service.extendedImages, Service.slideStep]

/-- Claim C3, witness for the amended theorem at a concrete input. -/
theorem claim_C3_witness :
    Pipeline.create_video_for_product "" (fun s => s.length) 3 1 ([0] : List Nat) (fun _ => 1)
      = ⟨[], [0], [], [], [], false, none⟩
    ∧ Service.create_video_for_product "" (fun s => s.length) ([0] : List Nat)
        (fun _ => some "u") (fun _ => true) (fun _ => true) (fun _ => 1) true
      = ⟨[], [0], [], [], [], false, none⟩ :=
  claim_C3_amended "" (fun s => s.length) 3 1 [0] (fun _ => 1)
    (fun _ => some "u") (fun _ => true) (fun _ => true) rfl

/-! ### Claim C5 — hyphen normalization -/

/-- Claim C5, counterexample.  The claim's example asserts a `"SKU-123"`
style token renders with "dash".  It does not: the inner check
`re.search(r"\d+-\d+", txt)` needs a digit immediately on each side of a
hyphen, and in "SKU-123" the character before the hyphen is the letter U, so
the hyphen is replaced by a plain space: the synthesized text is "SKU 123",
not "SKU dash 123".  (A genuinely numeric range such as "12-34" does get
"dash".) -/
theorem claim_C5_counterexample :
    voiceoverText "SKU-123" = "SKU 123"
    ∧ voiceoverText "SKU-123" ≠ "SKU dash 123"
    ∧ voiceoverText "12-34" = "12 dash 34" :=
  ⟨rfl, by decide, rfl⟩

/-- Claim C5, amended.  For a token `A-B` with both runs nonempty and
alphanumeric, the hyphen becomes the word "dash" exactly when the token
contains a digit-hyphen-digit substring (digits immediately surrounding the
hyphen, e.g. "12-34"), and a plain space otherwise — so "SKU-123" becomes
"SKU 123" and "eco-friendly" becomes "eco friendly"; moreover the per-slide
pipeline sends the normalized text only to synthesis, while each rendered
frame draws the original slide text unchanged. -/
theorem claim_C5_amended (a b : List Char) (ha : a ≠ []) (hb : b ≠ [])
    (hala : ∀ c ∈ a, isAlnum c = true) (halb : ∀ c ∈ b, isAlnum c = true) :
    hyphenSub (a ++ '-' :: b)
      = (if hasDigitDashDigit (a ++ '-' :: b) = true
         then a ++ (" dash ").data ++ b
         else a ++ ' ' :: b)
    ∧ ∀ (transcript : String) (width : String → Nat) (maxW maxLines : Nat)
        (images : List Nat) (audioDur : String → ℚ), 1 ≤ images.length →
        (Pipeline.create_video_for_product transcript width maxW maxLines images
            audioDur).clips.map Clip.frameText
          = (Pipeline.create_video_for_product transcript width maxW maxLines images
            audioDur).slides
        ∧ (Pipeline.create_video_for_product transcript width maxW maxLines images
            audioDur).audios.map AudioAsset.text
          = (Pipeline.create_video_for_product transcript width maxW maxLines images
            audioDur).slides.map voiceoverText := by
  constructor
  · rw [hyphenSub_token a b ha hb hala halb, hyphenRepl]
    by_cases hd : hasDigitDashDigit (a ++ '-' :: b) = true
    · rw [if_pos hd, if_pos hd, replaceDash_token _ a b hala halb]
    · rw [if_neg hd, if_neg hd, replaceDash_token _ a b hala halb]
      simp
  · intro transcript width maxW maxLines images audioDur hK
    have hno : ¬(images.length
          < (Pipeline.split_text_into_slides transcript width maxW maxLines).length
        ∧ images.length = 0) := by
      rintro ⟨-, h0⟩
      omega
    rw [pipeline_run_eq transcript width maxW maxLines images audioDur hno]
    constructor
    · show (assembleClips _).map Clip.frameText = _
      rw [assembleClips, List.map_map]
      exact List.map_fst_zip _ _ (by rw [List.length_map])
    · show (List.map (mkAudio audioDur) _).map AudioAsset.text = _
      rw [List.map_map]
      rfl

/-- Claim C5, witness for the amended theorem at a concrete token. -/
theorem claim_C5_witness :
    hyphenSub ("eco".data ++ '-' :: "friendly".data)
      = (if hasDigitDashDigit ("eco".data ++ '-' :: "friendly".data) = true
         then "eco".data ++ (" dash ").data ++ "friendly".data
         else "eco".data ++ ' ' :: "friendly".data) :=
  (claim_C5_amended "eco".data "friendly".data (by decide) (by decide)
    (by decide) (by decide)).1

/-! ### Claim C7 — inputs are not mutated -/

/-- Claim C7, counterexample.  `src/pipeline.py` line 89 executes
`images *= len(slides)//len(images) + 1`, which extends the caller's list
object in place.  With narration "aa bb" wrapping to 2 slides and a single
supplied image, the caller's list holds 3 elements after the call — it is
not equal to its value before the call, refuting the claim. -/
theorem claim_C7_counterexample :
    (Pipeline.create_video_for_product "aa bb" (fun s => s.length) 3 1 ([0] : List Nat)
        (fun _ => 1)).imagesAfter = [0, 0, 0]
    ∧ ([0, 0, 0] : List Nat) ≠ [0] :=
  ⟨rfl, by decide⟩

/-- Claim C7, amended.  The service implementation never mutates the
caller's images list (its scarcity branch rebinds a local name).  The
pipeline implementation leaves the list unchanged exactly when the images
suffice for the slides (or when the list is empty, in which case
`ZeroDivisionError` aborts before the in-place `*=`); when images are
scarcer than slides it extends the caller's list in place.  The title,
description and narration inputs are strings, which nothing rebinds or
mutates. -/
theorem claim_C7_amended (transcript : String) (width : String → Nat) (maxW maxLines : Nat)
    (images : List α) (audioDur : String → ℚ) (urlOf : α → Option String)
    (fetchOk synthOk : String → Bool) (fontOk : Bool) :
    (Service.create_video_for_product transcript width images urlOf fetchOk synthOk
        audioDur fontOk).imagesAfter = images
    ∧ ((Pipeline.create_video_for_product transcript width maxW maxLines images
          audioDur).imagesAfter = images
        ↔ ((Pipeline.split_text_into_slides transcript width maxW maxLines).length
            ≤ images.length ∨ images = [])) := by
  constructor
  · simp only [Service.create_video_for_product]
    split
    · rfl
    · split
      · rfl
      · rfl
  · by_cases hraise : images.length
        < (Pipeline.split_text_into_slides transcript width maxW maxLines).length
        ∧ images.length = 0
    · have hAfter : (Pipeline.create_video_for_product transcript width maxW maxLines images
          audioDur).imagesAfter = images := by
        simp only [Pipeline.create_video_for_product]
        rw [if_pos hraise]
      refine iff_of_true hAfter (Or.inr ?_)
      exact List.length_eq_zero.mp hraise.2
    · rw [pipeline_run_eq transcript width maxW maxLines images audioDur hraise]
      show Pipeline.extendedImages images _ = images ↔ _
      rw [Pipeline.extendedImages]
      by_cases hlt : images.length
          < (Pipeline.split_text_into_slides transcript width maxW maxLines).length
      · rw [if_pos hlt]
        have hK : 1 ≤ images.length := by
          rcases Nat.eq_zero_or_pos images.length with h0 | h1
          · exact absurd ⟨hlt, h0⟩ hraise
          · exact h1
        refine iff_of_false ?_ ?_
        · intro heq
          have hlen := congrArg List.length heq
          rw [listMul_length] at hlen
          have hb := lt_extended_bound
            (Pipeline.split_text_into_slides transcript width maxW maxLines).length
            images.length hK
          nlinarith
        · rintro (hle | hnil)
          · omega
          · rw [hnil] at hK
            simp at hK
      · rw [if_neg hlt]
        exact iff_of_true rfl (Or.inl (by omega))

/-! ### Claim C4 — deterministic cyclic image allocation -/

/-- Claim C4, confirmed.  For every image list with `K ≥ 1` elements, the
image selected for slide `i` is `images[i mod K]` of the original
caller-supplied list, in both implementations (the pipeline extends the list
by whole copies and indexes it directly; the service indexes the extended
list modulo its length — both reduce to `i mod K`).  The mapping is also
unchanged when the pipeline re-runs on the list its previous in-place
extension left behind, so repeated runs allocate identically. -/
theorem claim_C4_allocation (transcript : String) (width : String → Nat) (maxW maxLines : Nat)
    (images : List α) (audioDur : String → ℚ) (urlOf : α → Option String)
    (fetchOk synthOk : String → Bool) (i j : Nat)
    (hK : 1 ≤ images.length)
    (hi : i < (Pipeline.split_text_into_slides transcript width maxW maxLines).length)
    (hj : j < (Service.split_text_into_slides transcript width 600 3).length) :
    (Pipeline.create_video_for_product transcript width maxW maxLines images
        audioDur).usedImages[i]?
      = some images[i % images.length]?
    ∧ (Service.create_video_for_product transcript width images urlOf fetchOk synthOk
        audioDur true).usedImages[j]?
      = some images[j % images.length]?
    ∧ (Pipeline.create_video_for_product transcript width maxW maxLines
        ((Pipeline.create_video_for_product transcript width maxW maxLines images
          audioDur).imagesAfter) audioDur).usedImages[i]?
      = some images[i % images.length]? := by
  have hno : ¬(images.length
        < (Pipeline.split_text_into_slides transcript width maxW maxLines).length
      ∧ images.length = 0) := by
    rintro ⟨-, h0⟩
    omega
  have hnoS : ¬(images.length
        < (Service.split_text_into_slides transcript width 600 3).length
      ∧ images.length = 0) := by
    rintro ⟨-, h0⟩
    omega
  refine ⟨?_, ?_, ?_⟩
  · rw [pipeline_run_eq transcript width maxW maxLines images audioDur hno]
    show ((List.range _).map _)[i]? = _
    rw [List.getElem?_map, List.getElem?_range hi, Option.map_some']
    rw [extendedImages_getElem? images _ i hK hi]
  · rw [service_run_eq transcript width images urlOf fetchOk synthOk audioDur hnoS]
    show ((List.range _).map _)[j]? = _
    rw [List.getElem?_map, List.getElem?_range hj, Option.map_some']
    rw [service_extendedImages_eq]
    have hjlen : j < (Pipeline.extendedImages images
        (Service.split_text_into_slides transcript width 600 3).length).length := by
      rcases (extendedImages_length images
          (Service.split_text_into_slides transcript width 600 3).length hK).2 with hle | hlt
      · rw [Pipeline.extendedImages, if_neg (by omega)]
        omega
      · omega
    rw [Nat.mod_eq_of_lt hjlen]
    rw [extendedImages_getElem? images _ j hK hj]
  · have hAfter : (Pipeline.create_video_for_product transcript width maxW maxLines images
        audioDur).imagesAfter
        = Pipeline.extendedImages images
            (Pipeline.split_text_into_slides transcript width maxW maxLines).length := by
      rw [pipeline_run_eq transcript width maxW maxLines images audioDur hno]
    rw [hAfter]
    have hK2 : 1 ≤ (Pipeline.extendedImages images
        (Pipeline.split_text_into_slides transcript width maxW maxLines).length).length :=
      (extendedImages_length images _ hK).1
    have hno2 : ¬((Pipeline.extendedImages images
          (Pipeline.split_text_into_slides transcript width maxW maxLines).length).length
        < (Pipeline.split_text_into_slides transcript width maxW maxLines).length
      ∧ (Pipeline.extendedImages images
          (Pipeline.split_text_into_slides transcript width maxW maxLines).length).length
        = 0) := by
      rintro ⟨-, h0⟩
      omega
    rw [pipeline_run_eq transcript width maxW maxLines _ audioDur hno2]
    show ((List.range _).map _)[i]? = _
    rw [List.getElem?_map, List.getElem?_range hi, Option.map_some']
    rw [extendedImages_idem_getElem? images _ i hK hi]

/-- Claim C4, witness: scenario C (5 slides, 2 images) — the allocation at a
concrete input, plus the fully evaluated allocated sequence
`[img0, img1, img0, img1, img0]`. -/
theorem claim_C4_witness :
    (Pipeline.create_video_for_product "a b c d e" (fun s => s.length) 2 1
        ([10, 11] : List Nat) (fun _ => 1)).usedImages[2]?
      = some (([10, 11] : List Nat)[2 % 2]?)
    ∧ (Pipeline.create_video_for_product "a b c d e" (fun s => s.length) 2 1
        ([10, 11] : List Nat) (fun _ => 1)).usedImages
      = [some 10, some 11, some 10, some 11, some 10] :=
  ⟨(claim_C4_allocation "a b c d e" (fun s => s.length) 2 1 [10, 11] (fun _ => 1)
      (fun _ => some "u") (fun _ => true) (fun _ => true) 2 0 (by decide) (by decide)
      (by decide)).1,
   rfl⟩

/-! ### Claim C9 — audio-driven clip timing -/

/-- Claim C9, confirmed.  For every sequence of (frame, audio) pairs, the
assembled clip at each index has exactly its audio asset's duration, the
final concatenated video's duration is the sum of the per-pair audio
durations, and in the pipeline run the total clip duration equals the sum of
the durations of the audio assets synthesized for the slides. -/
theorem claim_C9_timing (pairs : List (String × AudioAsset)) (transcript : String)
    (width : String → Nat) (maxW maxLines : Nat) (images : List α)
    (audioDur : String → ℚ) :
    (∀ i : Nat, ((assembleClips pairs)[i]?).map Clip.duration
        = (pairs[i]?).map (fun p => p.2.duration))
    ∧ finalVideoDuration (assembleClips pairs) = (pairs.map (fun p => p.2.duration)).sum
    ∧ finalVideoDuration
        ((Pipeline.create_video_for_product transcript width maxW maxLines images
          audioDur).clips)
      = (((Pipeline.create_video_for_product transcript width maxW maxLines images
          audioDur).audios).map AudioAsset.duration).sum := by
  refine ⟨?_, ?_, ?_⟩
  · intro i
    rw [assembleClips, List.getElem?_map]
    cases pairs[i]? <;> rfl
  · rw [finalVideoDuration, assembleClips, List.map_map]
    rfl
  · by_cases hraise : images.length
        < (Pipeline.split_text_into_slides transcript width maxW maxLines).length
        ∧ images.length = 0
    · have h1 : (Pipeline.create_video_for_product transcript width maxW maxLines images
          audioDur).clips = [] := by
        simp only [Pipeline.create_video_for_product]
        rw [if_pos hraise]
      have h2 : (Pipeline.create_video_for_product transcript width maxW maxLines images
          audioDur).audios = [] := by
        simp only [Pipeline.create_video_for_product]
        rw [if_pos hraise]
      rw [h1, h2]
      rfl
    · rw [pipeline_run_eq transcript width maxW maxLines images audioDur hraise]
      show finalVideoDuration (assembleClips _) = _
      rw [finalVideoDuration, assembleClips, List.map_map]
      have hmap : ((Pipeline.split_text_into_slides transcript width maxW maxLines).zip
            ((Pipeline.split_text_into_slides transcript width maxW maxLines).map
              (mkAudio audioDur))).map
            (Clip.duration ∘ fun p : String × AudioAsset => mkClip p.1 p.2)
          = (((Pipeline.split_text_into_slides transcript width maxW maxLines).zip
              ((Pipeline.split_text_into_slides transcript width maxW maxLines).map
                (mkAudio audioDur))).map Prod.snd).map AudioAsset.duration := by
        rw [List.map_map]
        rfl
      rw [hmap]
      rw [List.map_snd_zip _ _ (by rw [List.length_map])]

/-! ### Claim C8 — one product's failure is not isolated -/

/-- Claim C8, counterexample.  The batch loop of `src/pipeline.py` wraps the
per-product work in no `try`/`except`: with two eligible rows where
generation raises on the first, the run terminates with that error having
processed only the first row — the second product is never attempted,
refuting the claim that a fatal error is caught at the product boundary and
the batch proceeds. -/
theorem claim_C8_counterexample :
    Pipeline.create_videos_and_blogs_from_csv
        (fun k => if k = ("L1", "P1") ∨ k = ("L2", "P2") then some ([0] : List Nat) else none)
        (fun _ => some ⟨"Brand", "MPN", "Desc"⟩)
        (fun k _ _ _ => if k = ("L1", "P1") then Except.error "SynthesisError" else Except.ok ())
        [⟨"L1", "P1"⟩, ⟨"L2", "P2"⟩]
      = ([("L1", "P1")], some "SynthesisError")
    ∧ ("L2", "P2") ∉ (Pipeline.create_videos_and_blogs_from_csv
        (fun k => if k = ("L1", "P1") ∨ k = ("L2", "P2") then some ([0] : List Nat) else none)
        (fun _ => some ⟨"Brand", "MPN", "Desc"⟩)
        (fun k _ _ _ => if k = ("L1", "P1") then Except.error "SynthesisError" else Except.ok ())
        [⟨"L1", "P1"⟩, ⟨"L2", "P2"⟩]).1 := by
  constructor
  · rfl
  · decide

/-- Claim C8, amended.  Only the precondition `continue` guards are
isolated per product: a row with no images (or an empty image list) or no
matching product data is skipped and the batch proceeds with the remaining
rows.  An error raised while generating an eligible product is *not* caught:
the loop terminates with that error, the failing product is the last one
visited, and every subsequent row goes unprocessed. -/
theorem claim_C8_amended (look : String × String → Option (List α))
    (prodOf : String × String → Option ProdInfo)
    (gen : String × String → String → String → List α → Except String Unit)
    (r : BatchRow) (rest : List BatchRow) (images : List α) (p : ProdInfo) (e : String)
    (h1 : look r.key = some images) (h2 : images ≠ []) (h3 : prodOf r.key = some p)
    (h4 : gen r.key (p.brand ++ " - " ++ p.mpn) p.description images = Except.error e) :
    Pipeline.create_videos_and_blogs_from_csv look prodOf gen (r :: rest)
      = ([r.key], some e)
    ∧ (∀ (r' : BatchRow) (rows : List BatchRow), look r'.key = none →
        Pipeline.create_videos_and_blogs_from_csv look prodOf gen (r' :: rows)
          = Pipeline.create_videos_and_blogs_from_csv look prodOf gen rows)
    ∧ (∀ (r' : BatchRow) (rows : List BatchRow), look r'.key = some [] →
        Pipeline.create_videos_and_blogs_from_csv look prodOf gen (r' :: rows)
          = Pipeline.create_videos_and_blogs_from_csv look prodOf gen rows) := by
  refine ⟨?_, ?_, ?_⟩
  · simp only [Pipeline.create_videos_and_blogs_from_csv, h1, h3, h4]
    rw [if_neg (by simpa using h2)]
  · intro r' rows hnone
    simp only [Pipeline.create_videos_and_blogs_from_csv, hnone]
  · intro r' rows hnil
    simp only [Pipeline.create_videos_and_blogs_from_csv, hnil, List.isEmpty_nil, if_true]

/-- Claim C8, witness for the amended theorem at a concrete batch. -/
theorem claim_C8_witness :
    Pipeline.create_videos_and_blogs_from_csv
        (fun k => if k = ("L1", "P1") then some ([7] : List Nat) else none)
        (fun _ => some ⟨"B", "M", "D"⟩)
        (fun _ _ _ _ => Except.error "EncodingError")
        [⟨"L1", "P1"⟩, ⟨"L2", "P2"⟩]
      = ([("L1", "P1")], some "EncodingError") :=
  (claim_C8_amended
    (fun k => if k = ("L1", "P1") then some ([7] : List Nat) else none)
    (fun _ => some ⟨"B", "M", "D"⟩)
    (fun _ _ _ _ => Except.error "EncodingError")
    ⟨"L1", "P1"⟩ [⟨"L2", "P2"⟩] [7] ⟨"B", "M", "D"⟩ "EncodingError"
    rfl (by decide) rfl rfl).1

end VideoGen
